import Mathlib

/-!
# Verification of the oneTBB worker permit manager (`src/tbb/market.cpp`)

A shallow embedding of the market (worker permit manager) of oneTBB's
`market.cpp`.  Machine integers of the source (`int`, `unsigned`,
`std::uintptr_t`) are modelled as `Int` / `Nat`; the values involved are
worker counts and epochs, far below any overflow boundary, and C `int`
division/remainder (truncation toward zero) is rendered with `Int.tdiv` /
`Int.tmod`.  Intrusive-list nodes are identified by a numeric `id`
standing for the node's address.  Atomic loads/stores collapse to plain
reads/writes: every theorem below is about the sequential behaviour of
one operation executed under the locks the source holds around it.
-/

namespace Market

/-- Number of per-priority arena lists (`num_priority_levels`); the source
uses `d1::num_priority_levels = 3`, which also serves as the sentinel value
of `max_priority_level` inside `market::update_allotment`. -/
def numPriorityLevels : Nat := 3

/-- A `tbb_permit_manager_client` together with the read-only view of its
arena that `market.cpp` consumes (`num_workers_requested()`,
`priority_level()`, `has_enqueued_tasks()`, `aba_epoch()`, `references()`).
`id` models the node's address (pointer identity in the intrusive lists). -/
structure Client where
  id : Nat
  /-- `priority_level()` — the index of the priority list this client is in. -/
  level : Nat
  /-- `num_workers_requested()` (a C `int`, asserted non-negative in the source). -/
  demand : Int
  /-- `my_num_workers_allotted`, as last written by `set_allotment`. -/
  allotted : Int
  /-- `my_is_top_priority`, as last written by `set_top_priority`. -/
  topPriority : Bool
  /-- `m_global_concurrency_mode`. -/
  gcMode : Bool
  /-- `has_enqueued_tasks()`. -/
  enqueued : Bool
  /-- `aba_epoch()` of the underlying arena. -/
  abaEpoch : Nat
  /-- `references()` of the underlying arena. -/
  refs : Nat
  deriving Repr, DecidableEq

/-- The loop state of `market::update_allotment(arena_list_type*, int, int)`:
`unassigned_workers`, `assigned`, `carry` and `max_priority_level`
(sentinel `numPriorityLevels` = "no client with demand seen yet"). -/
structure AllotState where
  unassigned : Int
  assigned : Int
  carry : Int
  maxPriorityLevel : Nat
  deriving Repr, DecidableEq

/-- The body of the inner client loop of `market::update_allotment`, iterated
over one priority list.  A client with `num_workers_requested() == 0` is
skipped (`continue`) and left untouched.  Otherwise `max_priority_level`
is lowered to the current list index on first sight, the allotment is
computed — mandatory path when `my_num_workers_soft_limit == 0`, otherwise
the carry discipline `tmp / D`, `tmp % D` — and the client's allotment and
top-priority flag are stored. -/
def processClients (soft : Nat) (maxW D A : Int) (lvl : Nat) :
    AllotState → List Client → AllotState × List Client
  | s, [] => (s, [])
  | s, c :: cs =>
    if c.demand = 0 then
      let r := processClients soft maxW D A lvl s cs
      (r.1, c :: r.2)
    else
      let mpl := if s.maxPriorityLevel = numPriorityLevels then lvl else s.maxPriorityLevel
      let allotted : Int :=
        if soft = 0 then
          if c.gcMode ∧ s.assigned < maxW then 1 else 0
        else
          (c.demand * A + s.carry).tdiv D
      let carry' : Int :=
        if soft = 0 then s.carry else (c.demand * A + s.carry).tmod D
      let c' : Client := { c with allotted := allotted, topPriority := decide (lvl = mpl) }
      let s' : AllotState :=
        { s with carry := carry', maxPriorityLevel := mpl, assigned := s.assigned + allotted }
      let r := processClients soft maxW D A lvl s' cs
      (r.1, c' :: r.2)

/-- The outer loop of `market::update_allotment` over the priority levels.
Each level is the pair `(my_priority_level_demand[list_idx],
my_arenas[list_idx])`; `lvl` is the running `list_idx`.  First
`assigned_per_priority = min(priority_level_demand, unassigned)` is taken
out of the unassigned budget, then the level's client list is processed. -/
def processLevels (soft : Nat) (maxW : Int) :
    AllotState → Nat → List (Int × List Client) → AllotState × List (List Client)
  | s, _, [] => (s, [])
  | s, lvl, (D, cs) :: rest =>
    let A := min D s.unassigned
    let s1 : AllotState := { s with unassigned := s.unassigned - A }
    let r1 := processClients soft maxW D A lvl s1 cs
    let r2 := processLevels soft maxW r1.1 (lvl + 1) rest
    (r2.1, r1.2 :: r2.2)

/-- `market::update_allotment(arena_list_type* arenas, int workers_demand,
int max_workers)` — the allotment engine.  `levels` pairs each priority
level's `my_priority_level_demand` entry with its arena list; `soft` is
`my_num_workers_soft_limit`.  Returns the updated lists and the `assigned`
total the source returns. -/
def update_allotment (soft : Nat) (levels : List (Int × List Client))
    (workers_demand max_workers : Int) : List (List Client) × Int :=
  let maxW := min workers_demand max_workers
  let s0 : AllotState :=
    { unassigned := maxW, assigned := 0, carry := 0, maxPriorityLevel := numPriorityLevels }
  let r := processLevels soft maxW s0 0 levels
  (r.2, r.1.assigned)

/-- The fields of `market` (plus the dispatcher's `my_num_workers_hard_limit`
and its ticket registry) that `market.cpp`'s demand/lifecycle operations on
the arena lists read and write.  `arenas` and `priorityLevelDemand` are the
`num_priority_levels`-sized member arrays `my_arenas` and
`my_priority_level_demand`, listed by level. -/
structure MarketState where
  /-- `my_arenas[0 .. num_priority_levels)`. -/
  arenas : List (List Client)
  /-- `my_priority_level_demand[0 .. num_priority_levels)` (C `int` entries). -/
  priorityLevelDemand : List Int
  /-- `my_total_demand`. -/
  totalDemand : Int
  /-- `my_num_workers_requested`. -/
  numWorkersRequested : Int
  /-- `my_num_workers_soft_limit` (unsigned). -/
  numWorkersSoftLimit : Nat
  /-- `my_mandatory_num_requested`. -/
  mandatoryNumRequested : Int
  /-- `my_arenas_aba_epoch` (`std::uintptr_t`). -/
  arenasAbaEpoch : Nat
  /-- The ids of the clients whose tickets are registered with the thread
  dispatcher (`insert_ticket` / `remove_ticket`). -/
  tickets : List Nat
  /-- The dispatcher's `my_num_workers_hard_limit`, fixed at construction. -/
  hardLimit : Nat
  deriving Repr, DecidableEq

/-- The per-level `(demand, clients)` pairing handed to the allotment
engine: `my_priority_level_demand` zipped with `my_arenas`. -/
def MarketState.levels (m : MarketState) : List (Int × List Client) :=
  m.priorityLevelDemand.zip m.arenas

/-- Modelled from the spec: the one-argument `market::update_allotment(unsigned
effective_soft_limit)` wrapper is declared in `market.h`, which is not among
the sources.  Per §4.3/§4.4 of the spec it invokes the allotment engine on
the priority lists and per-priority demands with `my_total_demand` as the
workers demand and the given budget as `max_workers`; the engine asserts
`workers_demand > 0`, so the call is guarded by a non-zero total demand. -/
def MarketState.update_allotment_budget (m : MarketState) (budget : Int) : MarketState :=
  if m.totalDemand = 0 then m
  else { m with
          arenas := (update_allotment m.numWorkersSoftLimit m.levels m.totalDemand budget).1 }

/-- `market::update_workers_request()`: recompute `my_num_workers_requested`
as `min(my_total_demand, my_num_workers_soft_limit)`, overridden to `1` when
`my_mandatory_num_requested > 0`; rerun the allotment engine with the new
request as budget; return the delta against the old request. -/
def MarketState.update_workers_request (m : MarketState) : MarketState × Int :=
  let old_request := m.numWorkersRequested
  let req0 : Int := min m.totalDemand (m.numWorkersSoftLimit : Int)
  let req : Int := if 0 < m.mandatoryNumRequested then 1 else req0
  let m1 : MarketState := { m with numWorkersRequested := req }
  let m2 := m1.update_allotment_budget req
  (m2, req - old_request)

/-- Add `delta` to `my_priority_level_demand[lvl]`. -/
def MarketState.addLevelDemand (m : MarketState) (lvl : Nat) (delta : Int) : MarketState :=
  { m with priorityLevelDemand :=
      m.priorityLevelDemand.set lvl (m.priorityLevelDemand.getD lvl 0 + delta) }

/-- The locked section of `market::adjust_demand` after
`a.update_request(delta, mandatory)` has produced the effective `delta`
(`update_request` lives in `clients.h`, outside the sources; its result is
taken as this function's `delta` argument, and the early return on a zero
effective delta is kept).  Returns the new state and the clipped delta that
is afterwards forwarded to `adjust_job_count_estimate`. -/
def MarketState.adjust_demand (m : MarketState) (lvl : Nat) (delta : Int) :
    MarketState × Int :=
  if delta = 0 then (m, 0)
  else
    let total_demand := m.totalDemand + delta
    let m1 := { m with totalDemand := total_demand }
    let m2 := m1.addLevelDemand lvl delta
    let effective_soft_limit : Int :=
      if 0 < m2.mandatoryNumRequested then 1 else (m2.numWorkersSoftLimit : Int)
    let m3 := m2.update_allotment_budget effective_soft_limit
    let delta' : Int :=
      if 0 < delta then
        if effective_soft_limit < m3.numWorkersRequested + delta then
          effective_soft_limit - m3.numWorkersRequested
        else delta
      else
        if m3.numWorkersRequested + delta < total_demand then
          min total_demand effective_soft_limit - m3.numWorkersRequested
        else delta
    ({ m3 with numWorkersRequested := m3.numWorkersRequested + delta' }, delta')

/-- `market::detach_arena` (invoked under `my_arenas_list_mutex`): if the
client is in global-concurrency mode, `disable_mandatory_concurrency_impl`
clears the flag and decrements `my_mandatory_num_requested`; then the client
is unlinked from its priority list, its dispatcher ticket is removed, and
`my_arenas_aba_epoch` is bumped when it equals the client's `aba_epoch()`. -/
def MarketState.detach_arena (m : MarketState) (a : Client) : MarketState :=
  let m1 := if a.gcMode
    then { m with mandatoryNumRequested := m.mandatoryNumRequested - 1 }
    else m
  let m2 := { m1 with
    arenas := m1.arenas.set a.level ((m1.arenas.getD a.level []).filter (fun c => c.id ≠ a.id)),
    tickets := m1.tickets.filter (fun t => t ≠ a.id) }
  if a.abaEpoch = m2.arenasAbaEpoch
  then { m2 with arenasAbaEpoch := m2.arenasAbaEpoch + 1 }
  else m2

/-- `market::try_destroy_arena(c, aba_epoch, priority_level)`: scan
`my_arenas[priority_level]` for the node whose address equals `c` (here: the
first node with the client's `id`); if found with matching `aba_epoch` and
both `num_workers_requested()` and `references()` zero, detach it and return
true; in every other case return false leaving the state alone. -/
def MarketState.try_destroy_arena (m : MarketState) (aId abaEpoch priority_level : Nat) :
    Bool × MarketState :=
  match (m.arenas.getD priority_level []).find? (fun c => c.id = aId) with
  | none => (false, m)
  | some c =>
    if c.abaEpoch = abaEpoch ∧ c.demand = 0 ∧ c.refs = 0
    then (true, m.detach_arena c)
    else (false, m)

/-- The number of clients currently in global-concurrency mode. -/
def MarketState.gcModeCount (m : MarketState) : Int :=
  ((m.arenas.map (fun cs => (cs.filter (fun c => c.gcMode)).length)).sum : Nat)

/-- The number of clients whose arena has enqueued tasks. -/
def MarketState.enqueuedCount (m : MarketState) : Int :=
  ((m.arenas.map (fun cs => (cs.filter (fun c => c.enqueued)).length)).sum : Nat)

/-- The first loop of `market::set_active_num_workers`: for every client in
every priority list with `m_global_concurrency_mode` set,
`disable_mandatory_concurrency_impl` clears the flag and decrements
`my_mandatory_num_requested` once per such client. -/
def MarketState.disableAllMandatory (m : MarketState) : MarketState :=
  { m with
    arenas := m.arenas.map (fun cs => cs.map (fun c => { c with gcMode := false })),
    mandatoryNumRequested := m.mandatoryNumRequested - m.gcModeCount }

/-- The second loop of `market::set_active_num_workers`: for every client in
every priority list with `has_enqueued_tasks()`,
`enable_mandatory_concurrency_impl` sets `m_global_concurrency_mode` and
increments `my_mandatory_num_requested` once per such client. -/
def MarketState.enableAllEnqueued (m : MarketState) : MarketState :=
  { m with
    arenas := m.arenas.map (fun cs => cs.map
      (fun c => if c.enqueued then { c with gcMode := true } else c)),
    mandatoryNumRequested := m.mandatoryNumRequested + m.enqueuedCount }

/-- `market::set_active_num_workers` up to (but not including) the final
`update_workers_request()` call: disable mandatory mode on every
mode-carrying client when the previous soft limit was zero with a non-empty
mandatory set, store the new soft limit, and, when the new soft limit is
zero, enable mandatory mode on every client with enqueued tasks. -/
def MarketState.set_active_num_workers_pre (m : MarketState) (soft_limit : Nat) : MarketState :=
  let m1 :=
    if m.numWorkersSoftLimit = 0 ∧ 0 < m.mandatoryNumRequested
    then m.disableAllMandatory else m
  let m2 := { m1 with numWorkersSoftLimit := soft_limit }
  if soft_limit = 0 then m2.enableAllEnqueued else m2

/-- `market::set_active_num_workers(soft_limit)`: early return when the soft
limit is unchanged; otherwise run the mandatory-mode maintenance loops and
recompute the workers request, yielding the delta forwarded to
`adjust_job_count_estimate`. -/
def MarketState.set_active_num_workers (m : MarketState) (soft_limit : Nat) :
    MarketState × Int :=
  if m.numWorkersSoftLimit = soft_limit then (m, 0)
  else (m.set_active_num_workers_pre soft_limit).update_workers_request

/-- The lifecycle fields `market::release` touches: the two reference counts,
whether `theMarket` still points at this instance, and the dispatcher-side
effects (`my_join_workers`, `request_close_connection`). -/
structure LifeState where
  /-- `my_ref_count`. -/
  refCount : Nat
  /-- `my_public_ref_count`. -/
  publicRefCount : Nat
  /-- `theMarket == this`. -/
  theMarketIsSelf : Bool
  /-- `my_thread_dispatcher->my_join_workers`. -/
  joinWorkers : Bool
  /-- Whether `request_close_connection()` has been issued on the dispatcher. -/
  closeRequested : Bool
  deriving Repr, DecidableEq

/-- `market::release(is_public, blocking_terminate)` after the
blocking-terminate wait loop (which only re-reads the counters and yields;
`s` is the state it observed on its final pass): decrement
`my_public_ref_count` when public, decrement `my_ref_count`, and when the
latter reaches zero clear `theMarket`, record `my_join_workers :=
blocking_terminate`, request the connection close and return
`blocking_terminate`; otherwise return false. -/
def LifeState.release (s : LifeState) (is_public blocking_terminate : Bool) :
    Bool × LifeState :=
  let s1 := if is_public then { s with publicRefCount := s.publicRefCount - 1 } else s
  let s2 := { s1 with refCount := s1.refCount - 1 }
  if s2.refCount = 0 then
    (blocking_terminate,
     { s2 with theMarketIsSelf := false, joinWorkers := blocking_terminate,
               closeRequested := true })
  else (false, s2)

/-- The `d1::task_group_context::may_have_children` sentinel compared against
`my_may_have_children`; its numeric value (from a header outside the
sources) is irrelevant, only equality with it is ever tested. -/
def may_have_children : Nat := 1

/-- The state `market::propagate_task_group_state` reads and writes: the
global propagation epoch, the `my_workers` slots up to
`my_first_unused_worker_idx` (a null slot is `none`), and the `my_masters`
list, each thread named by an id. -/
structure PropState where
  /-- `the_context_state_propagation_epoch`. -/
  epoch : Nat
  /-- `my_workers[0 .. my_first_unused_worker_idx)`. -/
  workers : List (Option Nat)
  /-- `my_masters`. -/
  masters : List Nat
  deriving Repr, DecidableEq

/-- `market::propagate_task_group_state(mptr_state, src, new_state)`.
`srcMayHaveChildren` is the value read from `src.my_may_have_children`;
`srcField` is the value of `src.*mptr_state` re-read under the propagation
mutex.  Returns the success flag, the new propagation state, and the list of
threads the state was broadcast to (non-null worker slots, then masters). -/
def PropState.propagate_task_group_state (p : PropState)
    (srcMayHaveChildren srcField new_state : Nat) : Bool × PropState × List Nat :=
  if srcMayHaveChildren ≠ may_have_children then (true, p, [])
  else if srcField ≠ new_state then (false, p, [])
  else (true, { p with epoch := p.epoch + 1 }, p.workers.filterMap id ++ p.masters)

/-! ## Derived quantities used in the statements -/

/-- Sum of `num_workers_requested()` over a client list. -/
def demandSum (cs : List Client) : Int := (cs.map Client.demand).sum

/-- Sum of the allotments of the clients the engine actually wrote in its
last run, i.e. those with non-zero demand (clients with zero demand are
skipped by `continue` and keep a stale allotment). -/
def writtenSum (cs : List Client) : Int :=
  ((cs.filter (fun c => c.demand ≠ 0)).map Client.allotted).sum

/-- The per-priority budgets `assigned_per_priority = min(priority_demand[l],
unassigned)` as the engine walks the levels, starting from budget `u`. -/
def levelBudgets : Int → List Int → List Int
  | _, [] => []
  | u, D :: rest => min D u :: levelBudgets (u - min D u) rest

/-- The number of clients with non-zero demand and global-concurrency mode
set, over one list. -/
def gcDemandCount (cs : List Client) : Int :=
  ((cs.filter (fun c => c.demand ≠ 0 ∧ c.gcMode)).length : Nat)

/-- Whether a client list contains a client with non-zero demand. -/
def hasDemand (cs : List Client) : Bool := cs.any (fun c => c.demand ≠ 0)

/-- The index of the first priority level holding a client with non-zero
demand, counting from `lvl`; `numPriorityLevels` when there is none (the
sentinel value of `max_priority_level`). -/
def firstDemandLevel : Nat → List (List Client) → Nat
  | _, [] => numPriorityLevels
  | lvl, cs :: rest => if hasDemand cs then lvl else firstDemandLevel (lvl + 1) rest

/-! ## C7 — `market::release` -/

/-- C7: `release(is_public, blocking_terminate)` decrements
`my_public_ref_count` only when public, then decrements `my_ref_count`; it
clears `theMarket` and requests the dispatcher connection close exactly when
`my_ref_count` reaches zero; it returns true iff it tore the market down
with `blocking_terminate` requested; and a release that does not drop
`my_ref_count` to zero leaves the singleton in place and returns false. -/
theorem release_spec (s : LifeState) (is_public blocking_terminate : Bool)
    (href : 1 ≤ s.refCount)
    (hpub : is_public = true → 1 ≤ s.publicRefCount)
    (hself : s.theMarketIsSelf = true)
    (hclose : s.closeRequested = false) :
    (s.release is_public blocking_terminate).2.publicRefCount
        = (if is_public then s.publicRefCount - 1 else s.publicRefCount)
    ∧ (s.release is_public blocking_terminate).2.refCount = s.refCount - 1
    ∧ (((s.release is_public blocking_terminate).2.theMarketIsSelf = false
          ∧ (s.release is_public blocking_terminate).2.closeRequested = true)
        ↔ s.refCount = 1)
    ∧ ((s.release is_public blocking_terminate).1 = true
        ↔ (s.refCount = 1 ∧ blocking_terminate = true))
    ∧ (s.refCount ≠ 1 →
        (s.release is_public blocking_terminate).2.theMarketIsSelf = true
        ∧ (s.release is_public blocking_terminate).2.closeRequested = false
        ∧ (s.release is_public blocking_terminate).1 = false) := by
  unfold LifeState.release
  cases is_public <;> cases blocking_terminate <;>
    simp_all <;> split <;> simp_all <;> omega

/-- Witness for `release_spec`: the second public release of spec scenario
S6 (one public handle left, no internal references) tears the market down
and returns true. -/
theorem release_spec_witness :
    (LifeState.release
        { refCount := 1, publicRefCount := 1, theMarketIsSelf := true,
          joinWorkers := false, closeRequested := false } true true).1 = true := by
  have h := release_spec
    { refCount := 1, publicRefCount := 1, theMarketIsSelf := true,
      joinWorkers := false, closeRequested := false } true true
    (by decide) (fun _ => by decide) (by decide) (by decide)
  exact h.2.2.2.1.mpr ⟨rfl, rfl⟩

/-! ## C8 — `market::propagate_task_group_state` -/

/-- C8: `propagate_task_group_state` returns false iff the source context's
`my_may_have_children` equals the may-have-children sentinel and the re-read
of the state field under the propagation mutex no longer equals `new_state`;
whenever it returns false, no broadcast happens and the propagation epoch is
unchanged; and when `my_may_have_children` is not the sentinel it returns
true without broadcasting and without touching the epoch. -/
theorem propagate_task_group_state_spec (p : PropState)
    (srcMayHaveChildren srcField new_state : Nat) :
    ((p.propagate_task_group_state srcMayHaveChildren srcField new_state).1 = false
      ↔ (srcMayHaveChildren = may_have_children ∧ srcField ≠ new_state))
    ∧ ((p.propagate_task_group_state srcMayHaveChildren srcField new_state).1 = false →
        (p.propagate_task_group_state srcMayHaveChildren srcField new_state).2.1 = p
        ∧ (p.propagate_task_group_state srcMayHaveChildren srcField new_state).2.2 = [])
    ∧ (srcMayHaveChildren ≠ may_have_children →
        (p.propagate_task_group_state srcMayHaveChildren srcField new_state).1 = true
        ∧ (p.propagate_task_group_state srcMayHaveChildren srcField new_state).2.1 = p
        ∧ (p.propagate_task_group_state srcMayHaveChildren srcField new_state).2.2 = []) := by
  unfold PropState.propagate_task_group_state
  by_cases h1 : srcMayHaveChildren = may_have_children <;>
    by_cases h2 : srcField = new_state <;> simp_all

/-! ## C9 — `market::detach_arena` and the ABA epoch -/

/-- A client whose arena's `aba_epoch` (3) lags behind the market's
`my_arenas_aba_epoch` (5): the situation after some other arena was
detached in between. -/
def staleEpochClient : Client :=
  { id := 10, level := 0, demand := 0, allotted := 0, topPriority := false,
    gcMode := false, enqueued := false, abaEpoch := 3, refs := 0 }

/-- A market holding `staleEpochClient` with `my_arenas_aba_epoch = 5`. -/
def staleEpochMarket : MarketState :=
  { arenas := [[staleEpochClient], [], []], priorityLevelDemand := [0, 0, 0],
    totalDemand := 0, numWorkersRequested := 0, numWorkersSoftLimit := 4,
    mandatoryNumRequested := 0, arenasAbaEpoch := 5, tickets := [10],
    hardLimit := 8 }

/-- C9 counterexample: `detach_arena` does **not** increment
`my_arenas_aba_epoch` on every removal — the bump is guarded by
`a.aba_epoch() == my_arenas_aba_epoch`, so removing a client whose epoch
(3) differs from the stored epoch (5) leaves the counter at 5. -/
theorem detach_arena_not_always_incrementing :
    ¬ (staleEpochMarket.detach_arena staleEpochClient).arenasAbaEpoch
        = staleEpochMarket.arenasAbaEpoch + 1 := by decide

/-- C9 (amended): `detach_arena` increments `my_arenas_aba_epoch` exactly
when the detached client's `aba_epoch` equals the stored epoch; provided the
client's epoch does not exceed the stored epoch, the stored epoch is
strictly larger than the detached client's epoch afterwards. -/
theorem detach_arena_epoch_spec (m : MarketState) (a : Client)
    (h : a.abaEpoch ≤ m.arenasAbaEpoch) :
    (m.detach_arena a).arenasAbaEpoch
      = (if a.abaEpoch = m.arenasAbaEpoch
          then m.arenasAbaEpoch + 1 else m.arenasAbaEpoch)
    ∧ a.abaEpoch < (m.detach_arena a).arenasAbaEpoch := by
  unfold MarketState.detach_arena
  cases a.gcMode <;> simp <;> split <;> simp_all <;> omega

/-- Witness for `detach_arena_epoch_spec` at `staleEpochMarket`: the epoch
stays 5, which is strictly above the detached client's epoch 3. -/
theorem detach_arena_epoch_spec_witness :
    (staleEpochMarket.detach_arena staleEpochClient).arenasAbaEpoch = 5
    ∧ staleEpochClient.abaEpoch
        < (staleEpochMarket.detach_arena staleEpochClient).arenasAbaEpoch := by
  have h := detach_arena_epoch_spec staleEpochMarket staleEpochClient (by decide)
  exact ⟨by rw [h.1]; decide, h.2⟩

/-! ## C6 — `market::try_destroy_arena` -/

theorem detach_arena_unlinks (m : MarketState) (a : Client)
    (hlen : a.level < m.arenas.length) :
    (m.detach_arena a).arenas.getD a.level []
      = (m.arenas.getD a.level []).filter (fun c => c.id ≠ a.id) := by
  unfold MarketState.detach_arena
  cases a.gcMode <;> simp <;> split <;>
    simp [List.getD_eq_getElem?_getD, List.getElem?_set_self, hlen]

theorem detach_arena_tickets (m : MarketState) (a : Client) :
    (m.detach_arena a).tickets = m.tickets.filter (fun t => t ≠ a.id) := by
  unfold MarketState.detach_arena
  cases a.gcMode <;> simp <;> split <;> simp

theorem detach_arena_mandatory (m : MarketState) (a : Client) :
    (m.detach_arena a).mandatoryNumRequested
      = m.mandatoryNumRequested - (if a.gcMode then 1 else 0) := by
  unfold MarketState.detach_arena
  cases a.gcMode <;> simp <;> split <;> simp

/-- C6: `try_destroy_arena(client, aba_epoch, priority_level)` returns true
iff the client is found in `my_arenas[priority_level]` with an `aba_epoch`
equal to the snapshot and both `num_workers_requested()` and `references()`
zero; on success it detaches the client (the id disappears from the
priority list and the ticket registry, and the mandatory-mode contribution
is removed); in every other case — in particular when the epoch has
advanced — it returns false with the state unchanged.  The hypotheses state
that ids (addresses) within the scanned list are distinct and that clients
sit in the list of their own priority level. -/
theorem try_destroy_arena_spec (m : MarketState) (aId abaEpoch priority_level : Nat)
    (hnodup : ((m.arenas.getD priority_level []).map Client.id).Nodup)
    (hlevel : ∀ c ∈ m.arenas.getD priority_level [], c.level = priority_level) :
    ((m.try_destroy_arena aId abaEpoch priority_level).1 = true
      ↔ ∃ c ∈ m.arenas.getD priority_level [],
          c.id = aId ∧ c.abaEpoch = abaEpoch ∧ c.demand = 0 ∧ c.refs = 0)
    ∧ ((m.try_destroy_arena aId abaEpoch priority_level).1 = false →
        (m.try_destroy_arena aId abaEpoch priority_level).2 = m)
    ∧ ((m.try_destroy_arena aId abaEpoch priority_level).1 = true →
        (∀ x ∈ (m.try_destroy_arena aId abaEpoch priority_level).2.arenas.getD
            priority_level [], x.id ≠ aId)
        ∧ aId ∉ (m.try_destroy_arena aId abaEpoch priority_level).2.tickets
        ∧ ∀ c ∈ m.arenas.getD priority_level [], c.id = aId →
            (m.try_destroy_arena aId abaEpoch priority_level).2.mandatoryNumRequested
              = m.mandatoryNumRequested - (if c.gcMode then 1 else 0)) := by
  rcases hfind : (m.arenas.getD priority_level []).find? (fun c => c.id = aId)
    with _ | c
  · have hnone : ∀ c ∈ m.arenas.getD priority_level [], ¬ c.id = aId := by
      intro c hc
      have := List.find?_eq_none.mp hfind c hc
      simpa using this
    refine ⟨?_, ?_, ?_⟩
    · constructor
      · intro h
        exfalso
        unfold MarketState.try_destroy_arena at h
        rw [hfind] at h
        simp at h
      · rintro ⟨c, hc, hid, -⟩
        exact absurd hid (hnone c hc)
    · intro _
      unfold MarketState.try_destroy_arena
      rw [hfind]
    · intro h
      exfalso
      unfold MarketState.try_destroy_arena at h
      rw [hfind] at h
      simp at h
  · have hcid : c.id = aId := by simpa using List.find?_some hfind
    have hcmem : c ∈ m.arenas.getD priority_level [] := List.mem_of_find?_eq_some hfind
    have hclevel : c.level = priority_level := hlevel c hcmem
    have hlen : priority_level < m.arenas.length := by
      rcases Nat.lt_or_ge priority_level m.arenas.length with h | h
      · exact h
      · exfalso
        have : m.arenas.getD priority_level [] = [] := by
          simp [List.getD_eq_getElem?_getD, List.getElem?_eq_none h]
        rw [this] at hcmem
        exact absurd hcmem (List.not_mem_nil c)
    by_cases hcond : c.abaEpoch = abaEpoch ∧ c.demand = 0 ∧ c.refs = 0
    · have hr : m.try_destroy_arena aId abaEpoch priority_level = (true, m.detach_arena c) := by
        unfold MarketState.try_destroy_arena
        rw [hfind]
        exact if_pos hcond
      refine ⟨?_, ?_, ?_⟩
      · rw [hr]
        simp only [true_iff]
        exact ⟨c, hcmem, hcid, hcond⟩
      · rw [hr]; intro h; exact absurd h (by simp)
      · intro _
        rw [hr]
        refine ⟨?_, ?_, ?_⟩
        · intro x hx
          have := detach_arena_unlinks m c (hclevel ▸ hlen)
          rw [hclevel] at this
          simp only [this, List.mem_filter] at hx
          intro hxid
          have := hx.2
          rw [hxid, ← hcid] at this
          simp at this
        · have := detach_arena_tickets m c
          simp only [this, List.mem_filter]
          rintro ⟨-, habs⟩
          rw [hcid] at habs
          simp at habs
        · intro c' hc' hc'id
          have hcc : c' = c :=
            List.inj_on_of_nodup_map hnodup hc' hcmem (by rw [hc'id, hcid])
          rw [hcc]
          exact detach_arena_mandatory m c
    · have hr : m.try_destroy_arena aId abaEpoch priority_level = (false, m) := by
        unfold MarketState.try_destroy_arena
        rw [hfind]
        exact if_neg hcond
      refine ⟨?_, ?_, ?_⟩
      · constructor
        · intro h
          rw [hr] at h
          exact absurd h (by simp)
        · rintro ⟨c', hc', hid', hprops⟩
          have hcc : c' = c :=
            List.inj_on_of_nodup_map hnodup hc' hcmem (by rw [hid', hcid])
          rw [hcc] at hprops
          exact absurd hprops hcond
      · intro _; rw [hr]
      · intro h; rw [hr] at h; exact absurd h (by simp)

/-- An abandoned client at priority level 2: zero demand, zero references,
`aba_epoch` equal to the market's current epoch. -/
def abandonedClient : Client :=
  { id := 20, level := 2, demand := 0, allotted := 0, topPriority := false,
    gcMode := false, enqueued := false, abaEpoch := 7, refs := 0 }

/-- A market holding only `abandonedClient`, with `my_arenas_aba_epoch = 7`. -/
def abandonedMarket : MarketState :=
  { arenas := [[], [], [abandonedClient]], priorityLevelDemand := [0, 0, 0],
    totalDemand := 0, numWorkersRequested := 0, numWorkersSoftLimit := 4,
    mandatoryNumRequested := 0, arenasAbaEpoch := 7, tickets := [20],
    hardLimit := 8 }

/-- Witness for `try_destroy_arena_spec`: destroying `abandonedClient` with
the matching epoch snapshot succeeds and deregisters its ticket. -/
theorem try_destroy_arena_spec_witness :
    (abandonedMarket.try_destroy_arena 20 7 2).1 = true
    ∧ 20 ∉ (abandonedMarket.try_destroy_arena 20 7 2).2.tickets := by
  have h := try_destroy_arena_spec abandonedMarket 20 7 2 (by decide) (by decide)
  have h1 : (abandonedMarket.try_destroy_arena 20 7 2).1 = true :=
    h.1.mpr ⟨abandonedClient, by decide, by decide, by decide, by decide, by decide⟩
  exact ⟨h1, (h.2.2 h1).2.1⟩

/-! ## C3 — `market::update_workers_request` -/

/-- C3: `update_workers_request` sets `my_num_workers_requested` to
`min(my_total_demand, my_num_workers_soft_limit)`, except that a positive
`my_mandatory_num_requested` overrides it to 1; it reruns the allotment
engine with the new request as budget; and it returns the difference
against the previous request.  (The hypothesis reflects the guard on the
engine's `workers_demand > 0` assertion.) -/
theorem update_workers_request_spec (m : MarketState) (h : m.totalDemand ≠ 0) :
    m.update_workers_request.1.numWorkersRequested
        = (if 0 < m.mandatoryNumRequested then 1
           else min m.totalDemand (m.numWorkersSoftLimit : Int))
    ∧ m.update_workers_request.2
        = m.update_workers_request.1.numWorkersRequested - m.numWorkersRequested
    ∧ m.update_workers_request.1.arenas
        = (update_allotment m.numWorkersSoftLimit m.levels m.totalDemand
            m.update_workers_request.1.numWorkersRequested).1 := by
  unfold MarketState.update_workers_request MarketState.update_allotment_budget
    MarketState.levels
  simp [h]

/-- The single arena of spec scenario S1: priority 1, demand 5. -/
def s1Client : Client :=
  { id := 1, level := 1, demand := 5, allotted := 0, topPriority := false,
    gcMode := false, enqueued := false, abaEpoch := 0, refs := 0 }

/-- Spec scenario S1: soft limit 7, hard limit 16, one client with demand 5. -/
def s1Market : MarketState :=
  { arenas := [[], [s1Client], []], priorityLevelDemand := [0, 5, 0],
    totalDemand := 5, numWorkersRequested := 0, numWorkersSoftLimit := 7,
    mandatoryNumRequested := 0, arenasAbaEpoch := 0, tickets := [1],
    hardLimit := 16 }

/-- Witness for `update_workers_request_spec` on scenario S1:
`workers_requested` becomes `min(5, 7) = 5` and the returned delta is 5. -/
theorem update_workers_request_spec_witness :
    s1Market.update_workers_request.1.numWorkersRequested = 5
    ∧ s1Market.update_workers_request.2 = 5 := by
  have h := update_workers_request_spec s1Market (by decide)
  refine ⟨by rw [h.1]; decide, ?_⟩
  rw [h.2.1, h.1]
  decide

/-! ## C2 — `market::adjust_demand` clipping -/

/-- The effective soft limit of `market::adjust_demand`:
`my_num_workers_soft_limit`, raised to 1 when `my_mandatory_num_requested`
is positive (the source asserts the soft limit is then 0). -/
def MarketState.effectiveSoftLimit (m : MarketState) : Int :=
  if 0 < m.mandatoryNumRequested then 1 else (m.numWorkersSoftLimit : Int)

/-- C2: for every `adjust_demand` call, the clipped delta keeps
`my_num_workers_requested` in bounds — a positive delta never pushes it
above the effective soft limit, a negative delta never pushes it below
`min(total_demand, effective_soft_limit)` — and on exit
`0 ≤ workers_requested ≤ effective_soft_limit ≤ workers_hard_limit`.
Hypotheses: the bounds held on entry, the new total demand is non-negative
(it is a sum of per-client demands, each asserted non-negative), and the
soft limit does not exceed the positive hard limit (enforced by
`calc_workers_soft_limit` and the assertion in `set_active_num_workers`). -/
theorem adjust_demand_spec (m : MarketState) (lvl : Nat) (delta : Int)
    (hreq0 : 0 ≤ m.numWorkersRequested)
    (hreq1 : m.numWorkersRequested ≤ m.effectiveSoftLimit)
    (htot : 0 ≤ m.totalDemand + delta)
    (hhard : m.numWorkersSoftLimit ≤ m.hardLimit)
    (hhard1 : 1 ≤ m.hardLimit) :
    (0 < delta →
      (m.adjust_demand lvl delta).1.numWorkersRequested ≤ m.effectiveSoftLimit)
    ∧ (delta < 0 →
      min (m.totalDemand + delta) m.effectiveSoftLimit
        ≤ (m.adjust_demand lvl delta).1.numWorkersRequested)
    ∧ 0 ≤ (m.adjust_demand lvl delta).1.numWorkersRequested
    ∧ (m.adjust_demand lvl delta).1.numWorkersRequested ≤ m.effectiveSoftLimit
    ∧ m.effectiveSoftLimit ≤ (m.hardLimit : Int) := by
  have hesl : m.effectiveSoftLimit ≤ (m.hardLimit : Int) := by
    unfold MarketState.effectiveSoftLimit
    split <;> omega
  by_cases h0 : delta = 0
  · subst h0
    simp only [MarketState.adjust_demand, if_pos rfl]
    exact ⟨fun h => absurd h (by omega), fun h => absurd h (by omega), hreq0, hreq1, hesl⟩
  · unfold MarketState.effectiveSoftLimit at hreq1 ⊢
    simp only [MarketState.adjust_demand, if_neg h0, MarketState.update_allotment_budget,
      MarketState.addLevelDemand]
    split <;> split_ifs <;> simp_all <;> omega

/-- Witness for `adjust_demand_spec`: on scenario S1's market, a demand
increase of 5 leaves `workers_requested` within `[0, effective_soft_limit]`. -/
theorem adjust_demand_spec_witness :
    (s1Market.adjust_demand 1 5).1.numWorkersRequested ≤ s1Market.effectiveSoftLimit
    ∧ 0 ≤ (s1Market.adjust_demand 1 5).1.numWorkersRequested := by
  have h := adjust_demand_spec s1Market 1 5 (by decide) (by decide) (by decide)
    (by decide) (by decide)
  exact ⟨h.2.2.2.1, h.2.2.1⟩

/-! ## C10 — `market::set_active_num_workers` and mandatory concurrency -/

/-- C10: when `set_active_num_workers` changes the soft limit to zero, then
after the new limit is stored and before `update_workers_request` runs,
every registered client whose arena has enqueued tasks is put into
global-concurrency mode and `my_mandatory_num_requested` is incremented
once per such client (no per-client `enable_mandatory_concurrency` call
from the arena is involved); the recomputation then starts from exactly
that intermediate state. -/
theorem set_active_num_workers_mandatory_spec (m : MarketState)
    (hold : m.numWorkersSoftLimit ≠ 0) :
    (∀ cs ∈ (m.set_active_num_workers_pre 0).arenas, ∀ c ∈ cs,
        c.enqueued = true → c.gcMode = true)
    ∧ (m.set_active_num_workers_pre 0).mandatoryNumRequested
        = m.mandatoryNumRequested + m.enqueuedCount
    ∧ (m.set_active_num_workers_pre 0).numWorkersSoftLimit = 0
    ∧ m.set_active_num_workers 0 = (m.set_active_num_workers_pre 0).update_workers_request := by
  have h1 : ¬(m.numWorkersSoftLimit = 0 ∧ 0 < m.mandatoryNumRequested) :=
    fun h => hold h.1
  have hpre : m.set_active_num_workers_pre 0
      = ({ m with numWorkersSoftLimit := 0 } : MarketState).enableAllEnqueued := by
    unfold MarketState.set_active_num_workers_pre
    rw [if_neg h1, if_pos rfl]
  refine ⟨?_, ?_, ?_, ?_⟩
  · rw [hpre]
    unfold MarketState.enableAllEnqueued
    intro cs hcs c hc henq
    simp only [List.mem_map] at hcs
    rcases hcs with ⟨cs0, -, rfl⟩
    simp only [List.mem_map] at hc
    rcases hc with ⟨c0, -, rfl⟩
    by_cases he : c0.enqueued = true
    · simp [he]
    · rw [if_neg (by simpa using he)] at henq ⊢
      exact absurd henq he
  · rw [hpre]
    unfold MarketState.enableAllEnqueued MarketState.enqueuedCount
    simp
  · rw [hpre]
    simp [MarketState.enableAllEnqueued]
  · unfold MarketState.set_active_num_workers
    rw [if_neg hold]

/-- A client whose arena has enqueued tasks (spec scenario S4 before the
soft limit is dropped to zero). -/
def enqueuedClient : Client :=
  { id := 30, level := 0, demand := 1, allotted := 0, topPriority := false,
    gcMode := false, enqueued := true, abaEpoch := 0, refs := 1 }

/-- A market with soft limit 3 holding `enqueuedClient`. -/
def enqueuedMarket : MarketState :=
  { arenas := [[enqueuedClient], [], []], priorityLevelDemand := [1, 0, 0],
    totalDemand := 1, numWorkersRequested := 1, numWorkersSoftLimit := 3,
    mandatoryNumRequested := 0, arenasAbaEpoch := 0, tickets := [30],
    hardLimit := 8 }

/-- Witness for `set_active_num_workers_mandatory_spec`: dropping the soft
limit of `enqueuedMarket` to zero puts its enqueued client into mandatory
mode and raises `my_mandatory_num_requested` to 1. -/
theorem set_active_num_workers_mandatory_spec_witness :
    (enqueuedMarket.set_active_num_workers_pre 0).mandatoryNumRequested = 1
    ∧ ∀ cs ∈ (enqueuedMarket.set_active_num_workers_pre 0).arenas, ∀ c ∈ cs,
        c.enqueued = true → c.gcMode = true := by
  have h := set_active_num_workers_mandatory_spec enqueuedMarket (by decide)
  exact ⟨by rw [h.2.1]; decide, h.1⟩

/-! ## The allotment-engine invariants (towards C1, C4, C5) -/

theorem processClients_basic (soft : Nat) (maxW D A : Int) (lvl : Nat)
    (cs : List Client) : ∀ s : AllotState,
    ((processClients soft maxW D A lvl s cs).2.map Client.demand = cs.map Client.demand)
    ∧ (processClients soft maxW D A lvl s cs).1.unassigned = s.unassigned
    ∧ List.Forall₂ (fun c c' => c.demand = 0 → c' = c) cs
        (processClients soft maxW D A lvl s cs).2
    ∧ writtenSum (processClients soft maxW D A lvl s cs).2
        = (processClients soft maxW D A lvl s cs).1.assigned - s.assigned := by
  induction cs with
  | nil =>
    intro s
    simp [processClients, writtenSum]
  | cons c cs ih =>
    intro s
    by_cases h : c.demand = 0
    · simp only [processClients, if_pos h]
      obtain ⟨ih1, ih2, ih3, ih4⟩ := ih s
      refine ⟨by simp [h, ih1], ih2, List.Forall₂.cons (fun _ => rfl) ih3, ?_⟩
      unfold writtenSum at ih4 ⊢
      simp only [List.filter_cons]
      rw [if_neg (by simp [h])]
      exact ih4
    · simp only [processClients, if_neg h]
      set al : Int :=
        (if soft = 0 then
          (if c.gcMode = true ∧ s.assigned < maxW then 1 else 0)
         else (c.demand * A + s.carry).tdiv D) with hal
      set cr : Int := (if soft = 0 then s.carry else (c.demand * A + s.carry).tmod D) with hcr
      set mpl : Nat :=
        (if s.maxPriorityLevel = numPriorityLevels then lvl else s.maxPriorityLevel) with hmpl
      obtain ⟨ih1, ih2, ih3, ih4⟩ := ih ⟨s.unassigned, s.assigned + al, cr, mpl⟩
      refine ⟨by simp [ih1], by simpa using ih2, ?_, ?_⟩
      · exact List.Forall₂.cons (fun hz => absurd hz h) ih3
      · unfold writtenSum at ih4 ⊢
        simp only [List.filter_cons]
        rw [if_pos (by simp [h])]
        simp only [List.map_cons, List.sum_cons]
        simp at ih4 ⊢
        omega

theorem demandSum_cons (c : Client) (cs : List Client) :
    demandSum (c :: cs) = c.demand + demandSum cs := by
  simp [demandSum]

theorem demandSum_nonneg (cs : List Client) (h : ∀ c ∈ cs, 0 ≤ c.demand) :
    0 ≤ demandSum cs := by
  induction cs with
  | nil => simp [demandSum]
  | cons c cs ih =>
    rw [demandSum_cons]
    have h1 := h c (by simp)
    have h2 := ih (fun x hx => h x (by simp [hx]))
    omega

/-- The carry discipline of the non-mandatory path: over one priority list,
the newly written allotments (weighted by `D`) and the outgoing carry
account exactly for `demandSum · A` plus the incoming carry; the carry stays
in `[0, D)`; and every written allotment lies in `[0, demand]`. -/
theorem processClients_carry (soft : Nat) (maxW D A : Int) (lvl : Nat)
    (hsoft : soft ≠ 0) (hD : 0 < D) (hA : 0 ≤ A) (hAD : A ≤ D)
    (cs : List Client) : ∀ s : AllotState,
    0 ≤ s.carry → s.carry < D → (∀ c ∈ cs, 0 ≤ c.demand) →
    ((processClients soft maxW D A lvl s cs).1.assigned - s.assigned) * D
        + (processClients soft maxW D A lvl s cs).1.carry
      = demandSum cs * A + s.carry
    ∧ 0 ≤ (processClients soft maxW D A lvl s cs).1.carry
    ∧ (processClients soft maxW D A lvl s cs).1.carry < D
    ∧ ∀ c' ∈ (processClients soft maxW D A lvl s cs).2, c'.demand ≠ 0 →
        0 ≤ c'.allotted ∧ c'.allotted ≤ c'.demand := by
  induction cs with
  | nil =>
    intro s h0 h1 _
    refine ⟨?_, h0, h1, by simp [processClients]⟩
    simp [processClients, demandSum]
  | cons c cs ih =>
    intro s h0 h1 hcs
    have hcd : 0 ≤ c.demand := hcs c (by simp)
    have htl : ∀ x ∈ cs, 0 ≤ x.demand := fun x hx => hcs x (by simp [hx])
    by_cases h : c.demand = 0
    · simp only [processClients, if_pos h]
      obtain ⟨ih1, ih2, ih3, ih4⟩ := ih s h0 h1 htl
      refine ⟨?_, ih2, ih3, ?_⟩
      · rw [demandSum_cons, h]
        simpa using ih1
      · intro c' hc' hcd'
        rcases List.mem_cons.mp hc' with rfl | hc'
        · exact absurd h hcd'
        · exact ih4 c' hc' hcd'
    · simp only [processClients, if_neg h, if_neg hsoft]
      set t : Int := c.demand * A + s.carry with htdef
      set al : Int := t.tdiv D with hal
      set cr : Int := t.tmod D with hcr
      set mpl : Nat :=
        (if s.maxPriorityLevel = numPriorityLevels then lvl else s.maxPriorityLevel) with hmpl
      have ht0 : 0 ≤ t := add_nonneg (mul_nonneg hcd hA) h0
      have hid : D * al + cr = t := Int.tdiv_add_tmod t D
      have hcr0 : 0 ≤ cr := Int.tmod_nonneg D ht0
      have hcrD : cr < D := Int.tmod_lt_of_pos t hD
      have hal0 : 0 ≤ al := Int.tdiv_nonneg ht0 (le_of_lt hD)
      have hmul : c.demand * A ≤ c.demand * D := mul_le_mul_of_nonneg_left hAD hcd
      have htup : D * al < D * (c.demand + 1) := by linarith
      have hald : al ≤ c.demand := by
        have := lt_of_mul_lt_mul_left htup (le_of_lt hD)
        omega
      obtain ⟨ih1, ih2, ih3, ih4⟩ :=
        ih ⟨s.unassigned, s.assigned + al, cr, mpl⟩ hcr0 hcrD htl
      dsimp only at ih1 ih2 ih3 ih4
      refine ⟨?_, ih2, ih3, ?_⟩
      · rw [demandSum_cons]
        linear_combination ih1 + hid
      · intro c' hc' hcd'
        rcases List.mem_cons.mp hc' with rfl | hc'
        · exact ⟨hal0, hald⟩
        · exact ih4 c' hc' hcd'

/-- Specialisation of `processClients_carry` to the state of a level entry:
with zero incoming carry and per-level demands summing to `D`, the assigned
total grows by exactly `A` and the outgoing carry is again zero. -/
theorem processClients_level_sum (soft : Nat) (maxW D A : Int) (lvl : Nat)
    (hsoft : soft ≠ 0) (hD : 0 < D) (hA : 0 ≤ A) (hAD : A ≤ D)
    (cs : List Client) (s : AllotState)
    (hc0 : s.carry = 0) (hsum : demandSum cs = D)
    (hpos : ∀ c ∈ cs, 0 ≤ c.demand) :
    (processClients soft maxW D A lvl s cs).1.assigned = s.assigned + A
    ∧ (processClients soft maxW D A lvl s cs).1.carry = 0 := by
  obtain ⟨h1, h2, h3, -⟩ := processClients_carry soft maxW D A lvl hsoft hD hA hAD cs s
    (by omega) (by omega) hpos
  rw [hsum, hc0] at h1
  set ra := (processClients soft maxW D A lvl s cs).1.assigned with hra
  set rc := (processClients soft maxW D A lvl s cs).1.carry with hrc
  have hk : rc = D * (A - (ra - s.assigned)) := by linear_combination h1
  have hknn : A - (ra - s.assigned) = 0 := by
    rcases lt_trichotomy (A - (ra - s.assigned)) 0 with hlt | heq | hgt
    · exfalso
      have h4 : D * (A - (ra - s.assigned)) < 0 := mul_neg_of_pos_of_neg hD hlt
      linarith
    · exact heq
    · exfalso
      have h5 : (1 : Int) ≤ A - (ra - s.assigned) := by omega
      have h6 : D * 1 ≤ D * (A - (ra - s.assigned)) :=
        mul_le_mul_of_nonneg_left h5 (le_of_lt hD)
      rw [mul_one] at h6
      linarith
  constructor
  · omega
  · rw [hknn, mul_zero] at hk
    exact hk

theorem processClients_all_zero (soft : Nat) (maxW D A : Int) (lvl : Nat)
    (cs : List Client) : ∀ s : AllotState, (∀ c ∈ cs, c.demand = 0) →
    processClients soft maxW D A lvl s cs = (s, cs) := by
  induction cs with
  | nil => intro s _; rfl
  | cons c cs ih =>
    intro s h
    simp only [processClients, if_pos (h c (by simp))]
    rw [ih s (fun x hx => h x (by simp [hx]))]

theorem demandSum_zero_of_nonneg (cs : List Client)
    (hpos : ∀ c ∈ cs, 0 ≤ c.demand) (h : demandSum cs = 0) :
    ∀ c ∈ cs, c.demand = 0 := by
  induction cs with
  | nil => simp
  | cons c cs ih =>
    rw [demandSum_cons] at h
    have h1 := hpos c (by simp)
    have h2 := demandSum_nonneg cs (fun x hx => hpos x (by simp [hx]))
    intro x hx
    rcases List.mem_cons.mp hx with rfl | hx
    · omega
    · exact ih (fun y hy => hpos y (by simp [hy])) (by omega) x hx

theorem writtenSum_all_zero (cs : List Client) (h : ∀ c ∈ cs, c.demand = 0) :
    writtenSum cs = 0 := by
  unfold writtenSum
  rw [List.filter_eq_nil_iff.mpr (by intro c hc; simpa using h c hc)]
  simp

/-- The outer-loop invariant of the non-mandatory path: walking the levels
with zero carry, each level's written allotments sum to its per-priority
budget `min(priority_demand, unassigned)`, the carry returns to zero after
every level, the unassigned budget stays non-negative, and every written
allotment lies in `[0, demand]`. -/
theorem processLevels_budgets (soft : Nat) (maxW : Int) (hsoft : soft ≠ 0)
    (levels : List (Int × List Client)) : ∀ (s : AllotState) (lvl : Nat),
    s.carry = 0 → 0 ≤ s.unassigned →
    (∀ p ∈ levels, demandSum p.2 = p.1 ∧ ∀ c ∈ p.2, 0 ≤ c.demand) →
    List.Forall₂ (fun A cs' => writtenSum cs' = A)
        (levelBudgets s.unassigned (levels.map Prod.fst))
        (processLevels soft maxW s lvl levels).2
    ∧ (processLevels soft maxW s lvl levels).1.carry = 0
    ∧ 0 ≤ (processLevels soft maxW s lvl levels).1.unassigned
    ∧ ∀ cs' ∈ (processLevels soft maxW s lvl levels).2, ∀ c' ∈ cs',
        c'.demand ≠ 0 → 0 ≤ c'.allotted ∧ c'.allotted ≤ c'.demand := by
  induction levels with
  | nil =>
    intro s lvl h0 h1 _
    refine ⟨?_, h0, h1, by simp [processLevels]⟩
    simp [processLevels, levelBudgets]
  | cons p rest ih =>
    obtain ⟨D, cs⟩ := p
    intro s lvl hc0 hu0 hlev
    have hsum : demandSum cs = D := (hlev (D, cs) (by simp)).1
    have hpos : ∀ c ∈ cs, 0 ≤ c.demand := (hlev (D, cs) (by simp)).2
    have hDnn : 0 ≤ D := hsum ▸ demandSum_nonneg cs hpos
    have hrest : ∀ p ∈ rest, demandSum p.2 = p.1 ∧ ∀ c ∈ p.2, 0 ≤ c.demand :=
      fun p hp => hlev p (by simp [hp])
    simp only [processLevels]
    set A : Int := min D s.unassigned with hA
    have hA0 : 0 ≤ A := le_min hDnn hu0
    have hAD : A ≤ D := min_le_left _ _
    have hAu : A ≤ s.unassigned := min_le_right _ _
    set s1 : AllotState := ⟨s.unassigned - A, s.assigned, s.carry, s.maxPriorityLevel⟩
      with hs1
    obtain ⟨b1, b2, b3, b4⟩ := processClients_basic soft maxW D A lvl cs s1
    set r1 := processClients soft maxW D A lvl s1 cs with hr1
    have hr1carry : r1.1.carry = 0 ∧ writtenSum r1.2 = A := by
      by_cases hD : D = 0
      · have hall : ∀ c ∈ cs, c.demand = 0 :=
          demandSum_zero_of_nonneg cs hpos (by rw [hsum, hD])
        have hz := processClients_all_zero soft maxW D A lvl cs s1 hall
        rw [hr1, hz]
        refine ⟨hc0, ?_⟩
        rw [writtenSum_all_zero cs hall]
        omega
      · obtain ⟨e1, e2⟩ := processClients_level_sum soft maxW D A lvl hsoft
          (by omega) hA0 hAD cs s1 hc0 hsum hpos
        refine ⟨e2, ?_⟩
        rw [b4, e1]
        omega
    have hr1un : r1.1.unassigned = s.unassigned - A := b2
    obtain ⟨i1, i2, i3, i4⟩ := ih r1.1 (lvl + 1) hr1carry.1 (by omega) hrest
    refine ⟨?_, i2, i3, ?_⟩
    · simp only [List.map_cons, levelBudgets]
      rw [← hA]
      refine List.Forall₂.cons hr1carry.2 ?_
      rw [← hr1un]
      exact i1
    · intro cs' hcs' c' hc' hcd'
      rcases List.mem_cons.mp hcs' with rfl | hcs'
      · by_cases hD : D = 0
        · have hall : ∀ c ∈ cs, c.demand = 0 :=
            demandSum_zero_of_nonneg cs hpos (by rw [hsum, hD])
          have hz := processClients_all_zero soft maxW D A lvl cs s1 hall
          rw [hr1, hz] at hc'
          exact absurd (hall c' hc') hcd'
        · obtain ⟨-, -, -, f4⟩ := processClients_carry soft maxW D A lvl hsoft
            (by omega) hA0 hAD cs s1
            (show (0 : Int) ≤ s.carry by omega) (show s.carry < D by omega) hpos
          exact f4 c' hc' hcd'
      · exact i4 cs' hcs' c' hc' hcd'

/-! ## C1 — per-priority sums of the carry discipline -/

/-- C1: in the non-mandatory path of the allotment engine, for every
priority level the allotments written for that level's clients with
positive demand sum to exactly the per-priority budget
`min(priority_demand[l], unassigned)` (the levels' budgets are
`levelBudgets` of the initial budget `min(workers_demand, max_workers)`),
and every written allotment is between 0 and the client's demand.  The
hypotheses are the source's invariants: non-zero soft limit, non-negative
demand inputs, and per-priority demands equal to the sum of the demands of
that level's clients. -/
theorem update_allotment_level_sums (soft : Nat) (levels : List (Int × List Client))
    (workers_demand max_workers : Int)
    (hsoft : soft ≠ 0) (hwd : 0 ≤ workers_demand) (hmw : 0 ≤ max_workers)
    (hlev : ∀ p ∈ levels, demandSum p.2 = p.1 ∧ ∀ c ∈ p.2, 0 ≤ c.demand) :
    List.Forall₂ (fun A cs' => writtenSum cs' = A)
        (levelBudgets (min workers_demand max_workers) (levels.map Prod.fst))
        (update_allotment soft levels workers_demand max_workers).1
    ∧ ∀ cs' ∈ (update_allotment soft levels workers_demand max_workers).1,
        ∀ c' ∈ cs', c'.demand ≠ 0 → 0 ≤ c'.allotted ∧ c'.allotted ≤ c'.demand := by
  obtain ⟨h1, -, -, h4⟩ := processLevels_budgets soft (min workers_demand max_workers)
    hsoft levels ⟨min workers_demand max_workers, 0, 0, numPriorityLevels⟩ 0 rfl
    (le_min hwd hmw) hlev
  exact ⟨h1, h4⟩

/-- Client A of spec scenario S2: priority 1, demand 4. -/
def s2ClientA : Client :=
  { id := 1, level := 1, demand := 4, allotted := 0, topPriority := false,
    gcMode := false, enqueued := false, abaEpoch := 0, refs := 0 }

/-- Client B of spec scenario S2: priority 1, demand 4. -/
def s2ClientB : Client := { s2ClientA with id := 2 }

/-- The levels of spec scenario S2: both clients at priority 1,
`priority_demand[1] = 8`. -/
def s2Levels : List (Int × List Client) :=
  [(0, []), (8, [s2ClientA, s2ClientB]), (0, [])]

/-- Witness for `update_allotment_level_sums` on scenario S2: with budget 6
and two clients of demand 4, the allotments at level 1 sum to exactly 6 and
each stays within its demand. -/
theorem update_allotment_level_sums_witness :
    writtenSum ((update_allotment 6 s2Levels 8 6).1.getD 1 []) = 6
    ∧ ∀ cs' ∈ (update_allotment 6 s2Levels 8 6).1, ∀ c' ∈ cs',
        c'.demand ≠ 0 → c'.allotted ≤ c'.demand := by
  have h := update_allotment_level_sums 6 s2Levels 8 6 (by decide) (by decide)
    (by decide) (by decide)
  refine ⟨?_, fun cs' hcs' c' hc' hd => (h.2 cs' hcs' c' hc' hd).2⟩
  have h1 := h.1
  have hb : levelBudgets (min (8 : Int) 6) (s2Levels.map Prod.fst) = [0, 6, 0] := by
    decide
  rw [hb] at h1
  rcases h1 with - | ⟨-, h1⟩
  rcases h1 with - | ⟨h11, -⟩
  simpa using h11

/-! ## C4 — the mandatory-concurrency path of the engine -/

/-- Total number of clients with non-zero demand in global-concurrency mode
across all levels. -/
def gcTotal (levels : List (Int × List Client)) : Int :=
  (levels.map (fun p => gcDemandCount p.2)).sum

theorem gcDemandCount_cons (c : Client) (cs : List Client) :
    gcDemandCount (c :: cs)
      = (if c.demand ≠ 0 ∧ c.gcMode = true then 1 else 0) + gcDemandCount cs := by
  unfold gcDemandCount
  rw [List.filter_cons]
  by_cases hc : c.demand ≠ 0 ∧ c.gcMode = true
  · rw [if_pos (by simpa using hc), if_pos hc]
    rw [List.length_cons]
    push_cast
    ring
  · rw [if_neg (by simpa using hc), if_neg hc]
    ring

theorem gcDemandCount_nonneg (cs : List Client) : 0 ≤ gcDemandCount cs := by
  unfold gcDemandCount
  positivity

/-- The mandatory path (`my_num_workers_soft_limit == 0`) hands out
allotment 1 to mode-carrying clients with non-zero demand while
`assigned < max_workers`, and 0 to the other processed clients, saturating
`assigned` at `max_workers`. -/
theorem processClients_mandatory (soft : Nat) (hsoft : soft = 0) (maxW D A : Int)
    (lvl : Nat) (cs : List Client) : ∀ s : AllotState,
    (processClients soft maxW D A lvl s cs).1.assigned
      = max s.assigned (min (s.assigned + gcDemandCount cs) maxW)
    ∧ ∀ c' ∈ (processClients soft maxW D A lvl s cs).2, c'.demand ≠ 0 →
        (c'.gcMode = false → c'.allotted = 0)
        ∧ (c'.allotted = 0 ∨ (c'.gcMode = true ∧ c'.allotted = 1)) := by
  induction cs with
  | nil =>
    intro s
    refine ⟨?_, by simp [processClients]⟩
    simp only [processClients, gcDemandCount, List.filter_nil, List.length_nil]
    omega
  | cons c cs ih =>
    intro s
    by_cases h : c.demand = 0
    · simp only [processClients, if_pos h]
      obtain ⟨ih1, ih2⟩ := ih s
      refine ⟨?_, ?_⟩
      · rw [ih1, gcDemandCount_cons, if_neg (by simp [h])]
        ring_nf
      · intro c' hc' hcd'
        rcases List.mem_cons.mp hc' with rfl | hc'
        · exact absurd h hcd'
        · exact ih2 c' hc' hcd'
    · simp only [processClients, if_neg h, if_pos hsoft]
      set al : Int := (if c.gcMode = true ∧ s.assigned < maxW then 1 else 0) with hal
      set mpl : Nat :=
        (if s.maxPriorityLevel = numPriorityLevels then lvl else s.maxPriorityLevel) with hmpl
      obtain ⟨ih1, ih2⟩ := ih ⟨s.unassigned, s.assigned + al, s.carry, mpl⟩
      dsimp only at ih1 ih2
      have hgc : gcDemandCount (c :: cs)
          = (if c.demand ≠ 0 ∧ c.gcMode = true then 1 else 0) + gcDemandCount cs :=
        gcDemandCount_cons c cs
      have hnn : 0 ≤ gcDemandCount cs := gcDemandCount_nonneg cs
      refine ⟨?_, ?_⟩
      · rw [ih1, hgc]
        by_cases hg : c.gcMode = true
        · rw [if_pos ⟨h, hg⟩, hal]
          by_cases hlt : s.assigned < maxW
          · rw [if_pos ⟨hg, hlt⟩]
            omega
          · rw [if_neg (by simp [hlt])]
            omega
        · rw [if_neg (by simp [hg]), hal, if_neg (by simp [hg])]
          omega
      · intro c' hc' hcd'
        rcases List.mem_cons.mp hc' with rfl | hc'
        · constructor
          · intro hg
            dsimp only at hg ⊢
            simp only [hal]
            rw [if_neg (by simp [hg])]
          · dsimp only
            simp only [hal]
            by_cases hg : c.gcMode = true ∧ s.assigned < maxW
            · rw [if_pos hg]
              exact Or.inr ⟨hg.1, rfl⟩
            · rw [if_neg hg]
              exact Or.inl rfl
        · exact ih2 c' hc' hcd'

theorem gcTotal_nonneg (levels : List (Int × List Client)) : 0 ≤ gcTotal levels := by
  unfold gcTotal
  apply List.sum_nonneg
  intro x hx
  rcases List.mem_map.mp hx with ⟨p, -, rfl⟩
  exact gcDemandCount_nonneg p.2

/-- The mandatory path over all levels: `assigned` saturates at
`max_workers`, counting one permit per mode-carrying client with demand. -/
theorem processLevels_mandatory (soft : Nat) (hsoft : soft = 0) (maxW : Int)
    (levels : List (Int × List Client)) : ∀ (s : AllotState) (lvl : Nat),
    (processLevels soft maxW s lvl levels).1.assigned
      = max s.assigned (min (s.assigned + gcTotal levels) maxW)
    ∧ ∀ cs' ∈ (processLevels soft maxW s lvl levels).2, ∀ c' ∈ cs', c'.demand ≠ 0 →
        (c'.gcMode = false → c'.allotted = 0)
        ∧ (c'.allotted = 0 ∨ (c'.gcMode = true ∧ c'.allotted = 1)) := by
  induction levels with
  | nil =>
    intro s lvl
    refine ⟨?_, by simp [processLevels]⟩
    simp only [processLevels, gcTotal, List.map_nil, List.sum_nil]
    omega
  | cons p rest ih =>
    obtain ⟨D, cs⟩ := p
    intro s lvl
    simp only [processLevels]
    obtain ⟨m1, m2⟩ := processClients_mandatory soft hsoft maxW D (min D s.unassigned) lvl
      cs ⟨s.unassigned - min D s.unassigned, s.assigned, s.carry, s.maxPriorityLevel⟩
    dsimp only at m1
    obtain ⟨i1, i2⟩ := ih (processClients soft maxW D (min D s.unassigned) lvl
      ⟨s.unassigned - min D s.unassigned, s.assigned, s.carry, s.maxPriorityLevel⟩ cs).1 (lvl + 1)
    have hgct : gcTotal ((D, cs) :: rest) = gcDemandCount cs + gcTotal rest := by
      simp [gcTotal]
    have hnn1 : 0 ≤ gcDemandCount cs := gcDemandCount_nonneg cs
    have hnn2 : 0 ≤ gcTotal rest := gcTotal_nonneg rest
    refine ⟨?_, ?_⟩
    · rw [i1, m1, hgct]
      omega
    · intro cs' hcs' c' hc' hcd'
      rcases List.mem_cons.mp hcs' with rfl | hcs'
      · exact m2 c' hc' hcd'
      · exact i2 cs' hcs' c' hc' hcd'

/-- Clients skipped for zero demand are returned untouched, level by
level. -/
theorem processLevels_untouched (soft : Nat) (maxW : Int)
    (levels : List (Int × List Client)) : ∀ (s : AllotState) (lvl : Nat),
    List.Forall₂ (List.Forall₂ (fun c c' => c.demand = 0 → c' = c))
      (levels.map Prod.snd) (processLevels soft maxW s lvl levels).2 := by
  induction levels with
  | nil => intro s lvl; simp [processLevels]
  | cons p rest ih =>
    obtain ⟨D, cs⟩ := p
    intro s lvl
    simp only [processLevels, List.map_cons]
    exact List.Forall₂.cons (processClients_basic soft maxW D _ lvl cs _).2.2.1 (ih _ _)

/-- A client with zero demand but `m_global_concurrency_mode` set; the
engine's `continue` on zero demand skips it. -/
def zeroDemandGcClient : Client :=
  { id := 41, level := 0, demand := 0, allotted := 0, topPriority := false,
    gcMode := true, enqueued := true, abaEpoch := 0, refs := 0 }

/-- A client with demand 1 and mode unset. -/
def plainDemandClient : Client :=
  { id := 40, level := 0, demand := 1, allotted := 0, topPriority := false,
    gcMode := false, enqueued := false, abaEpoch := 0, refs := 0 }

/-- Both clients at level 0 with `priority_demand[0] = 1`. -/
def mandatoryCounterLevels : List (Int × List Client) :=
  [(1, [plainDemandClient, zeroDemandGcClient]), (0, []), (0, [])]

/-- C4 counterexample: with soft limit 0 and budget 1, a mode-carrying
client whose demand is zero is skipped by the `continue` at the top of the
client loop: it is **not** assigned allotment 1 even though the budget is
not exhausted (the engine assigns 0 permits in total here), contradicting
the claim that every `global_concurrency_mode` client receives allotment 1
until the budget is exhausted. -/
theorem update_allotment_mandatory_counterexample :
    ¬ ∀ cs' ∈ (update_allotment 0 mandatoryCounterLevels 1 1).1, ∀ c' ∈ cs',
        (c'.gcMode = true →
          (c'.allotted = 1 ∨ (update_allotment 0 mandatoryCounterLevels 1 1).2 = 1))
        ∧ (c'.gcMode = false → c'.allotted = 0) := by decide

/-- C4 (amended): when the soft limit is zero, the engine assigns allotment
1 to clients with **positive demand** and `global_concurrency_mode == true`
until the budget is exhausted (the total assigned is
`min(#such clients, max(budget, 0))`), assigns 0 to every other client with
positive demand, and leaves clients with zero demand untouched; with the
budget at most 1 (the source asserts `max_workers` is 0 or 1 here) the
override therefore yields at most one worker permit in total. -/
theorem update_allotment_mandatory_spec (soft : Nat)
    (levels : List (Int × List Client)) (workers_demand max_workers : Int)
    (hsoft : soft = 0) (hb : min workers_demand max_workers ≤ 1) :
    (update_allotment soft levels workers_demand max_workers).2
      = min (gcTotal levels) (max (min workers_demand max_workers) 0)
    ∧ (update_allotment soft levels workers_demand max_workers).2 ≤ 1
    ∧ (∀ cs' ∈ (update_allotment soft levels workers_demand max_workers).1,
        ∀ c' ∈ cs', c'.demand ≠ 0 →
          (c'.gcMode = false → c'.allotted = 0)
          ∧ (c'.allotted = 0 ∨ (c'.gcMode = true ∧ c'.allotted = 1)))
    ∧ List.Forall₂ (List.Forall₂ (fun c c' => c.demand = 0 → c' = c))
        (levels.map Prod.snd)
        (update_allotment soft levels workers_demand max_workers).1 := by
  obtain ⟨h1, h2⟩ := processLevels_mandatory soft hsoft
    (min workers_demand max_workers) levels
    ⟨min workers_demand max_workers, 0, 0, numPriorityLevels⟩ 0
  have hnn := gcTotal_nonneg levels
  have h1' : (update_allotment soft levels workers_demand max_workers).2
      = max 0 (min (0 + gcTotal levels) (min workers_demand max_workers)) := h1
  refine ⟨by omega, by omega, h2, ?_⟩
  exact processLevels_untouched soft (min workers_demand max_workers) levels
    ⟨min workers_demand max_workers, 0, 0, numPriorityLevels⟩ 0

/-- A mode-carrying client with demand 1 (spec scenario S4 after
`enable_mandatory`). -/
def gcClientA : Client :=
  { id := 50, level := 0, demand := 1, allotted := 0, topPriority := false,
    gcMode := true, enqueued := true, abaEpoch := 0, refs := 0 }

/-- A second mode-carrying client with demand 1. -/
def gcClientB : Client := { gcClientA with id := 51 }

/-- Two mandatory clients at level 0, `priority_demand[0] = 2`. -/
def mandatoryLevels : List (Int × List Client) :=
  [(2, [gcClientA, gcClientB]), (0, []), (0, [])]

/-- Witness for `update_allotment_mandatory_spec`: two mandatory clients
competing for budget 1 receive exactly one permit in total. -/
theorem update_allotment_mandatory_spec_witness :
    (update_allotment 0 mandatoryLevels 2 1).2 = 1
    ∧ (update_allotment 0 mandatoryLevels 2 1).2 ≤ 1 := by
  have h := update_allotment_mandatory_spec 0 mandatoryLevels 2 1 rfl (by decide)
  refine ⟨?_, h.2.1⟩
  rw [h.1]
  decide

/-! ## C5 — the top-priority flag -/

/-- Once `max_priority_level` has left its sentinel, the client loop keeps
it and writes `is_top_priority = (list_idx == max_priority_level)` on every
processed client. -/
theorem processClients_mpl_set (soft : Nat) (maxW D A : Int) (lvl : Nat)
    (cs : List Client) : ∀ s : AllotState, s.maxPriorityLevel ≠ numPriorityLevels →
    (processClients soft maxW D A lvl s cs).1.maxPriorityLevel = s.maxPriorityLevel
    ∧ ∀ c' ∈ (processClients soft maxW D A lvl s cs).2, c'.demand ≠ 0 →
        c'.topPriority = decide (lvl = s.maxPriorityLevel) := by
  induction cs with
  | nil =>
    intro s h
    exact ⟨rfl, by simp [processClients]⟩
  | cons c cs ih =>
    intro s h
    by_cases hz : c.demand = 0
    · simp only [processClients, if_pos hz]
      obtain ⟨i1, i2⟩ := ih s h
      refine ⟨i1, ?_⟩
      intro c' hc' hd
      rcases List.mem_cons.mp hc' with rfl | hc'
      · exact absurd hz hd
      · exact i2 c' hc' hd
    · simp only [processClients, if_neg hz, if_neg h]
      set al : Int :=
        (if soft = 0 then
          (if c.gcMode = true ∧ s.assigned < maxW then 1 else 0)
         else (c.demand * A + s.carry).tdiv D) with hal
      set cr : Int := (if soft = 0 then s.carry else (c.demand * A + s.carry).tmod D)
        with hcr
      obtain ⟨i1, i2⟩ := ih ⟨s.unassigned, s.assigned + al, cr, s.maxPriorityLevel⟩ h
      dsimp only at i1 i2
      refine ⟨i1, ?_⟩
      intro c' hc' hd
      rcases List.mem_cons.mp hc' with rfl | hc'
      · rfl
      · exact i2 c' hc' hd

theorem hasDemand_cons (c : Client) (cs : List Client) :
    hasDemand (c :: cs) = (decide (c.demand ≠ 0) || hasDemand cs) := by
  simp [hasDemand]

/-- With `max_priority_level` still at its sentinel, the client loop leaves
it there when no client has demand; otherwise it drops it to the current
level and every processed client at this level gets the top-priority
flag. -/
theorem processClients_mpl_sentinel (soft : Nat) (maxW D A : Int) (lvl : Nat)
    (hlvl : lvl ≠ numPriorityLevels)
    (cs : List Client) : ∀ s : AllotState, s.maxPriorityLevel = numPriorityLevels →
    (hasDemand cs = false →
        (processClients soft maxW D A lvl s cs).1.maxPriorityLevel = numPriorityLevels)
    ∧ (hasDemand cs = true →
        (processClients soft maxW D A lvl s cs).1.maxPriorityLevel = lvl)
    ∧ ∀ c' ∈ (processClients soft maxW D A lvl s cs).2, c'.demand ≠ 0 →
        c'.topPriority = true := by
  induction cs with
  | nil =>
    intro s h
    exact ⟨fun _ => h, fun habs => by simp [hasDemand] at habs,
           by simp [processClients]⟩
  | cons c cs ih =>
    intro s h
    by_cases hz : c.demand = 0
    · simp only [processClients, if_pos hz]
      obtain ⟨i1, i2, i3⟩ := ih s h
      refine ⟨?_, ?_, ?_⟩
      · intro hnd
        rw [hasDemand_cons] at hnd
        simp only [Bool.or_eq_false_iff] at hnd
        exact i1 hnd.2
      · intro hsd
        rw [hasDemand_cons] at hsd
        rcases Bool.or_eq_true_iff.mp hsd with h1 | h1
        · exact absurd hz (by simpa using h1)
        · exact i2 h1
      · intro c' hc' hd
        rcases List.mem_cons.mp hc' with rfl | hc'
        · exact absurd hz hd
        · exact i3 c' hc' hd
    · simp only [processClients, if_neg hz, if_pos h]
      set al : Int :=
        (if soft = 0 then
          (if c.gcMode = true ∧ s.assigned < maxW then 1 else 0)
         else (c.demand * A + s.carry).tdiv D) with hal
      set cr : Int := (if soft = 0 then s.carry else (c.demand * A + s.carry).tmod D)
        with hcr
      obtain ⟨j1, j2⟩ := processClients_mpl_set soft maxW D A lvl cs
        ⟨s.unassigned, s.assigned + al, cr, lvl⟩ hlvl
      dsimp only at j1 j2
      refine ⟨?_, fun _ => j1, ?_⟩
      · intro hnd
        rw [hasDemand_cons] at hnd
        simp only [Bool.or_eq_false_iff] at hnd
        exact absurd hz (by simpa using hnd.1)
      · intro c' hc' hd
        rcases List.mem_cons.mp hc' with rfl | hc'
        · simp
        · rw [j2 c' hc' hd]
          simp

/-- Per-level specification of the top-priority flag: walking the lists from
level `lvl`, every client with non-zero demand has `is_top_priority` set
iff its level equals `fdl`. -/
def FlagsSpec (fdl : Nat) : Nat → List (List Client) → Prop
  | _, [] => True
  | lvl, cs :: rest =>
    (∀ c ∈ cs, c.demand ≠ 0 → (c.topPriority = true ↔ lvl = fdl))
    ∧ FlagsSpec fdl (lvl + 1) rest

/-- The outer loop writes the top-priority flags so that exactly the
clients with non-zero demand at the first level holding such a client carry
the flag. -/
theorem processLevels_flags (soft : Nat) (maxW : Int)
    (levels : List (Int × List Client)) : ∀ (s : AllotState) (lvl : Nat),
    lvl + levels.length ≤ numPriorityLevels →
    (s.maxPriorityLevel = numPriorityLevels →
      FlagsSpec (firstDemandLevel lvl (levels.map Prod.snd)) lvl
        (processLevels soft maxW s lvl levels).2
      ∧ (processLevels soft maxW s lvl levels).1.maxPriorityLevel
          = firstDemandLevel lvl (levels.map Prod.snd))
    ∧ (s.maxPriorityLevel < lvl →
      FlagsSpec s.maxPriorityLevel lvl (processLevels soft maxW s lvl levels).2
      ∧ (processLevels soft maxW s lvl levels).1.maxPriorityLevel
          = s.maxPriorityLevel) := by
  induction levels with
  | nil =>
    intro s lvl hlen
    exact ⟨fun h => ⟨trivial, by simp [processLevels, firstDemandLevel, h]⟩,
           fun _ => ⟨trivial, rfl⟩⟩
  | cons p rest ih =>
    obtain ⟨D, cs⟩ := p
    intro s lvl hlen
    have hlvl : lvl ≠ numPriorityLevels := by
      simp only [List.length_cons] at hlen
      unfold numPriorityLevels at hlen ⊢
      omega
    simp only [processLevels, List.map_cons]
    constructor
    · intro hmpl
      obtain ⟨j1, j2, j3⟩ := processClients_mpl_sentinel soft maxW D
        (min D s.unassigned) lvl hlvl cs
        ⟨s.unassigned - min D s.unassigned, s.assigned, s.carry, s.maxPriorityLevel⟩ hmpl
      set r1 := processClients soft maxW D (min D s.unassigned) lvl
        ⟨s.unassigned - min D s.unassigned, s.assigned, s.carry, s.maxPriorityLevel⟩ cs
        with hr1
      by_cases hd : hasDemand cs = true
      · have hfdl : firstDemandLevel lvl (cs :: rest.map Prod.snd) = lvl := by
          show (if hasDemand cs = true then lvl
                else firstDemandLevel (lvl + 1) (rest.map Prod.snd)) = _
          rw [if_pos hd]
        rw [hfdl]
        have hmpl1 : r1.1.maxPriorityLevel = lvl := j2 hd
        obtain ⟨-, k⟩ := ih r1.1 (lvl + 1)
          (by simp only [List.length_cons] at hlen; omega)
        obtain ⟨k1, k2⟩ := k (by omega)
        rw [hmpl1] at k1 k2
        refine ⟨⟨?_, k1⟩, k2⟩
        intro c hc hcd
        rw [j3 c hc hcd]
        simp
      · have hd' : hasDemand cs = false := by simpa using hd
        have hfdl : firstDemandLevel lvl (cs :: rest.map Prod.snd)
            = firstDemandLevel (lvl + 1) (rest.map Prod.snd) := by
          show (if hasDemand cs = true then lvl
                else firstDemandLevel (lvl + 1) (rest.map Prod.snd)) = _
          rw [if_neg (by simp [hd'])]
        rw [hfdl]
        have hmpl1 : r1.1.maxPriorityLevel = numPriorityLevels := j1 hd'
        obtain ⟨k, -⟩ := ih r1.1 (lvl + 1)
          (by simp only [List.length_cons] at hlen; omega)
        obtain ⟨k1, k2⟩ := k hmpl1
        refine ⟨⟨?_, k1⟩, k2⟩
        intro c hc hcd
        exfalso
        have hall : ∀ x ∈ cs, x.demand = 0 := by
          intro x hx
          by_contra hxne
          have : hasDemand cs = true := by
            unfold hasDemand
            rw [List.any_eq_true]
            exact ⟨x, hx, by simpa using hxne⟩
          rw [this] at hd'
          exact absurd hd' (by simp)
        have hz := processClients_all_zero soft maxW D (min D s.unassigned) lvl cs
          ⟨s.unassigned - min D s.unassigned, s.assigned, s.carry, s.maxPriorityLevel⟩ hall
        rw [hr1, hz] at hc
        exact hcd (hall c hc)
    · intro hmpl
      have hmplne : s.maxPriorityLevel ≠ numPriorityLevels := by
        simp only [List.length_cons] at hlen
        unfold numPriorityLevels at hlen ⊢
        omega
      obtain ⟨j1, j2⟩ := processClients_mpl_set soft maxW D
        (min D s.unassigned) lvl cs
        ⟨s.unassigned - min D s.unassigned, s.assigned, s.carry, s.maxPriorityLevel⟩ hmplne
      dsimp only at j1 j2
      set r1 := processClients soft maxW D (min D s.unassigned) lvl
        ⟨s.unassigned - min D s.unassigned, s.assigned, s.carry, s.maxPriorityLevel⟩ cs
        with hr1
      obtain ⟨-, k⟩ := ih r1.1 (lvl + 1)
        (by simp only [List.length_cons] at hlen; omega)
      obtain ⟨k1, k2⟩ := k (by rw [j1]; omega)
      rw [j1] at k1 k2
      refine ⟨⟨?_, k1⟩, k2⟩
      intro c hc hcd
      rw [j2 c hc hcd]
      constructor
      · intro habs
        exfalso
        have : lvl = s.maxPriorityLevel := by simpa using habs
        omega
      · intro habs
        omega

/-- The index of the first non-empty priority list, counting from `lvl`
(`numPriorityLevels` when all are empty): the literal reading of "highest
non-empty priority list". -/
def firstNonemptyLevel : Nat → List (List Client) → Nat
  | _, [] => numPriorityLevels
  | lvl, cs :: rest => if cs.isEmpty then firstNonemptyLevel (lvl + 1) rest else lvl

/-- A registered client with zero demand at priority 0; its list is
non-empty in the literal sense. -/
def idleLowClient : Client :=
  { id := 60, level := 0, demand := 0, allotted := 0, topPriority := false,
    gcMode := false, enqueued := false, abaEpoch := 0, refs := 0 }

/-- A client with demand 1 at priority 1. -/
def busyHighClient : Client :=
  { id := 61, level := 1, demand := 1, allotted := 0, topPriority := false,
    gcMode := false, enqueued := false, abaEpoch := 0, refs := 0 }

/-- Level data: an idle client at level 0, a demanding client at level 1. -/
def topPriorityCounterLevels : List (Int × List Client) :=
  [(0, [idleLowClient]), (1, [busyHighClient]), (0, [])]

/-- C5 counterexample: after the engine runs, the client at level 1 carries
`is_top_priority = true` although the highest **non-empty** priority list is
level 0 (it holds the idle client): `max_priority_level` only tracks lists
holding a client with non-zero demand, so the claim's "highest non-empty
priority list" reading is violated. -/
theorem top_priority_counterexample :
    ¬ ∀ c ∈ (update_allotment 6 topPriorityCounterLevels 1 6).1.getD 1 [],
        (c.topPriority = true
          ↔ 1 = firstNonemptyLevel 0 (update_allotment 6 topPriorityCounterLevels 1 6).1) := by
  decide

/-- C5 (amended): after the allotment engine runs, among the clients with
non-zero demand the `is_top_priority` flag is true iff the client sits in
the highest priority list holding a client with non-zero demand; no client
with non-zero demand in a lower level carries the flag (clients with zero
demand are skipped and keep their previous flag). -/
theorem update_allotment_top_priority_spec (soft : Nat)
    (levels : List (Int × List Client)) (workers_demand max_workers : Int)
    (hlen : levels.length ≤ numPriorityLevels) :
    FlagsSpec (firstDemandLevel 0 (levels.map Prod.snd)) 0
      (update_allotment soft levels workers_demand max_workers).1
    ∧ List.Forall₂ (List.Forall₂ (fun c c' => c.demand = 0 → c' = c))
        (levels.map Prod.snd)
        (update_allotment soft levels workers_demand max_workers).1 := by
  refine ⟨?_, processLevels_untouched soft (min workers_demand max_workers) levels
    ⟨min workers_demand max_workers, 0, 0, numPriorityLevels⟩ 0⟩
  exact ((processLevels_flags soft (min workers_demand max_workers) levels
    ⟨min workers_demand max_workers, 0, 0, numPriorityLevels⟩ 0 (by omega)).1 rfl).1

/-- The client of spec scenario S3 at priority 0 with demand 2. -/
def s3ClientH : Client :=
  { id := 70, level := 0, demand := 2, allotted := 0, topPriority := false,
    gcMode := false, enqueued := false, abaEpoch := 0, refs := 0 }

/-- The client of spec scenario S3 at priority 1 with demand 3. -/
def s3ClientA : Client :=
  { id := 71, level := 1, demand := 3, allotted := 0, topPriority := false,
    gcMode := false, enqueued := false, abaEpoch := 0, refs := 0 }

/-- Spec scenario S3's levels: H at priority 0, A at priority 1. -/
def s3Levels : List (Int × List Client) :=
  [(2, [s3ClientH]), (3, [s3ClientA]), (0, [])]

/-- Witness for `update_allotment_top_priority_spec` on scenario S3: H (the
demanding client at the highest demanding level, 0) gets the flag, A (at
level 1) does not. -/
theorem update_allotment_top_priority_spec_witness :
    (∀ c ∈ (update_allotment 4 s3Levels 5 4).1.getD 0 [], c.demand ≠ 0 →
        c.topPriority = true)
    ∧ ∀ c ∈ (update_allotment 4 s3Levels 5 4).1.getD 1 [], c.demand ≠ 0 →
        c.topPriority = false := by
  have h := (update_allotment_top_priority_spec 4 s3Levels 5 4 (by decide)).1
  have hfdl : firstDemandLevel 0 (s3Levels.map Prod.snd) = 0 := by decide
  rw [hfdl] at h
  obtain ⟨h0, h1, -⟩ := h
  constructor
  · intro c hc hd
    exact (h0 c hc hd).mpr rfl
  · intro c hc hd
    have := h1 c hc hd
    rcases Bool.eq_false_or_eq_true c.topPriority with hb | hb
    · exact absurd (this.mp hb) (by omega)
    · exact hb

end Market
